import Mathlib

/-!
Verification of the section-splitting / link-resolution core of the
`generate_innodoc.py` postflight script (innodoc-mintmod repository,
`.panzer/postflight/generate_innodoc.py`).

The script works on pandoc's JSON AST: every node is a dict with a tag
`"t"` and a payload `"c"`.  We embed the node shapes that the script
reads or writes as a closed inductive type.  Payload components that no
pass of the script ever touches (ordered-list numbering attributes, the
table caption / alignment / width columns, the math display type) are
omitted; they are carried through unchanged by every pass and cannot
influence any behaviour modelled here.
-/

namespace GenInnodoc

/-- Pandoc attribute triple `[identifier, classes, key-value pairs]`. -/
structure Attr where
  ident : String
  classes : List String
  kvs : List (String × String)
deriving Repr

mutual

/-- Pandoc AST nodes, as read and written by `generate_innodoc.py`.
`Other` stands for any tag outside the closed set that the script's
dispatch tables recognise (those fall through to the warning branch). -/
inductive Node where
  | Header (level : Nat) (attr : Attr) (inlines : List Node)
  | Para (content : List Node)
  | Plain (content : List Node)
  | Emph (content : List Node)
  | Strong (content : List Node)
  | Div (attr : Attr) (content : List Node)
  | Span (attr : Attr) (content : List Node)
  | Link (attr : Attr) (caption : List Node) (url : String) (title : String)
  | Image (attr : Attr) (caption : List Node) (url : String) (title : String)
  | CodeBlock (attr : Attr) (text : String)
  | Code (attr : Attr) (text : String)
  | BulletList (items : List (List Node))
  | OrderedList (items : List (List Node))
  | DefinitionList (items : List (List DLEntry × List DLEntry))
  | Quoted (quoteType : String) (content : List Node)
  | Table (headers : List (List Node)) (rows : List (List (List Node)))
  | Math (text : String)
  | Str (text : String)
  | Space
  | SoftBreak
  | LineBreak
  | Other (tag : String)
deriving Repr

/-- One element of a definition-list term or definition side.  The python
walkers test `isinstance(x, list)` on these elements and treat a list as
a sequence of nodes and everything else as a single node, so both shapes
must exist in the model. -/
inductive DLEntry where
  | one (n : Node)
  | many (ns : List Node)
deriving Repr

end

/-- A section of the extracted tree.  The python code uses a dict with
optional `"content"` / `"children"` / `"type"` keys; absence of
`"content"`/`"children"` is observationally equal to the empty list in
every pass modelled here (both are only iterated or `try`-indexed), so
they are plain lists. -/
inductive Section where
  | mk (title : List Node) (id : String) (sectionType : Option String)
       (content : List Node) (children : List Section)
deriving Repr

def Section.title : Section → List Node
  | .mk t _ _ _ _ => t

def Section.id : Section → String
  | .mk _ i _ _ _ => i

def Section.sectionType : Section → Option String
  | .mk _ _ ty _ _ => ty

def Section.content : Section → List Node
  | .mk _ _ _ c _ => c

def Section.children : Section → List Section
  | .mk _ _ _ _ cs => cs

/-- `MAX_LEVELS = 3`: max. depth of headers to consider when splitting
sections. -/
def MAX_LEVELS : Nat := 3

/-- Python `"{:03}".format(n)`: decimal, left-padded with zeros to width 3. -/
def fmt3 (n : Nat) : String :=
  let s := toString n
  if s.length < 3 then String.mk (List.replicate (3 - s.length) '0') ++ s else s

/-- `ExtractSectionTree.get_tree`, section-id construction: ordinal prefix
plus the heading's native identifier when present
(`"{}-{}".format(section_num, section_id)` resp. bare `section_num`). -/
def sectionIdOf (idx : Nat) (headerId : String) : String :=
  if headerId ≠ "" then fmt3 idx ++ "-" ++ headerId else fmt3 idx

/-- Decomposes a node when it is a header. -/
def headerParts : Node → Option (Nat × Attr × List Node)
  | .Header l a i => some (l, a, i)
  | _ => none

/-- `node["t"] == "Header" and node["c"][0] == self.level`. -/
def isHeaderAtLevel (level : Nat) (n : Node) : Bool :=
  match headerParts n with
  | some (l, _, _) => l == level
  | none => false

/-- The ("title", "type", "id") fields accumulated in `self.section`
while a section is open (the python dict between two headings of the
current level). -/
structure OpenSection where
  title : List Node
  id : String
  sectionType : Option String
deriving Repr

/-- The mutable attributes of an `ExtractSectionTree` instance. -/
structure BState where
  sections : List Section
  curr : Option OpenSection
  awaitHeader : Bool
  content : List Node
  children : List Node
  sectionIdx : Nat
deriving Repr

/-- Fresh `ExtractSectionTree` state (its `__init__`). -/
def initB : BState :=
  { sections := [], curr := none, awaitHeader := true,
    content := [], children := [], sectionIdx := 0 }

/-- Open a new section from a level-matching header node: store the
title, derive an optional `type` tag from the header's classes
(`exercises` checked before `test`) and build the ordinal-prefixed id. -/
def openFromHeader (attr : Attr) (inlines : List Node) (idx : Nat) : OpenSection :=
  let ty : Option String :=
    if attr.classes.contains "exercises" then some "exercises"
    else if attr.classes.contains "test" then some "test"
    else none
  { title := inlines, id := sectionIdOf idx attr.ident, sectionType := ty }

/-- Buffer a non-matching node: into `content` before the first
level-matching header, into `children` afterwards. -/
def pushNode (n : Node) (st : BState) : BState :=
  if st.awaitHeader then { st with content := st.content ++ [n] }
  else { st with children := st.children ++ [n] }

/-- `ExtractSectionTree.create_section`, final assembly: the recursive
split result (`subsections`, `subcontent`) becomes `children`/`content`
of the closed section. -/
def finishSection (os : OpenSection) (sub : List Section × List Node) : Section :=
  .mk os.title os.id os.sectionType sub.2 sub.1

/-- `ExtractSectionTree.get_tree` / `create_section`.  The loop scans
the node list; a header of the current level closes the open section
(recursively splitting its buffered children at `level + 1`, but only
while `level <= MAX_LEVELS`; beyond that the buffer becomes the section's
content verbatim) and opens a new one.  At the end of input a still-open
section is closed the same way.  Returns `(sections, content)` exactly
like the python method. -/
def getTreeLoop (level : Nat) (nodes : List Node) (st : BState) :
    List Section × List Node :=
  match nodes with
  | [] =>
    match st.curr with
    | none => (st.sections, st.content)
    | some os =>
      let sub :=
        if h : level ≤ MAX_LEVELS then getTreeLoop (level + 1) st.children initB
        else ([], st.children)
      (st.sections ++ [finishSection os sub], st.content)
  | node :: rest =>
    match headerParts node with
    | some (l, attr, inlines) =>
      if l = level then
        let st1 :=
          match st.curr with
          | none => st
          | some os =>
            let sub :=
              if h : level ≤ MAX_LEVELS then getTreeLoop (level + 1) st.children initB
              else ([], st.children)
            { st with sections := st.sections ++ [finishSection os sub], children := [] }
        getTreeLoop level rest
          { st1 with curr := some (openFromHeader attr inlines st1.sectionIdx),
                     awaitHeader := false, sectionIdx := st1.sectionIdx + 1 }
      else getTreeLoop level rest (pushNode node st)
    | none => getTreeLoop level rest (pushNode node st)
termination_by (MAX_LEVELS + 1 - level, nodes.length)
decreasing_by
  all_goals first
    | (apply Prod.Lex.left; simp only [MAX_LEVELS] at *; omega)
    | (apply Prod.Lex.right; simp)

/-- `ExtractSectionTree(nodes, level).get_tree()`. -/
def getTree (level : Nat) (nodes : List Node) : List Section × List Node :=
  getTreeLoop level nodes initB

end GenInnodoc

namespace GenInnodoc

/-! ## Python dict model

The two indexes are python dicts that the script only ever assigns into
and looks up (they are never iterated, so insertion order is not
observable).  We model assignment as prepending and lookup as first
match: `m[k] = v` followed by `m[k]` yields `v`, and a later assignment
shadows an earlier one, exactly like a dict. -/

def pyInsert {α β : Type} (m : List (α × β)) (k : α) (v : β) : List (α × β) :=
  (k, v) :: m

def pyLookup {α β : Type} [BEq α] (m : List (α × β)) (k : α) : Option β :=
  match m with
  | [] => none
  | (k', v) :: rest => if k' == k then some v else pyLookup rest k

/-- WARNING-level log lines emitted by the script (`panzertools.log`
calls with level `"WARNING"`; the DEBUG line logged on a successful link
rewrite is not a warning and not recorded here). -/
inductive Warn where
  | unknownElem (passName : String) (tag : String) (loc : String)
  | unknownSpan (sectionId : String)
  | unmappedRef (cmd : String) (target : String) (sectionId : String)
deriving Repr

/-! ## CreateMapOfSectionIds -/

/-- `_section_id_to_mintmod_section_id`: strip the ordinal prefix (first
three characters, plus a following '-' when present).  Returns `none`
exactly when the python function returns `None` (id shorter than three
characters); an id of exactly the ordinal yields `some ""`. -/
def mintmodSectionId (sectionId : String) : Option String :=
  if sectionId.length ≥ 3 then
    match (sectionId.data.drop 3 : List Char) with
    | '-' :: rest => some (String.mk rest)
    | s => some (String.mk s)
  else none

/-- The section-id map under construction, together with the list of
assignments performed, in execution order. -/
structure SMState where
  map : List (Option String × String)
  log : List (Option String × String)
deriving Repr

def smInsert (st : SMState) (k : Option String) (v : String) : SMState :=
  { map := pyInsert st.map k v, log := st.log ++ [(k, v)] }

mutual

/-- `CreateMapOfSectionIds._handle_section`: record
`id_map[mintmod_section_id] = prefix + section id`, then recurse into the
children.  The prefix for each child is re-read from the dict
(`self.id_map[mintmod_section_id]`) inside the loop, so a descendant that
overwrites the key changes the prefix used for the following siblings. -/
def smSection (s : Section) (pfx : String) (st : SMState) : SMState :=
  match s with
  | .mk _ sid _ _ cs =>
    let mm := mintmodSectionId sid
    let st1 := smInsert st mm (pfx ++ sid)
    smChildren mm cs st1

/-- The `for subsection in section["children"]` loop; a `KeyError` from
the dict read is swallowed by the surrounding `try`, aborting the loop
(unreachable in practice since the key was just assigned). -/
def smChildren (mm : Option String) (cs : List Section) (st : SMState) : SMState :=
  match cs with
  | [] => st
  | c :: rest =>
    match pyLookup st.map mm with
    | none => st
    | some p => smChildren mm rest (smSection c (p ++ "/") st)

end

/-- `CreateMapOfSectionIds.get_map`: handle every top-level section with
prefix `""`. -/
def smSections (ss : List Section) (st : SMState) : SMState :=
  match ss with
  | [] => st
  | s :: rest => smSections rest (smSection s "" st)

def smWalk (ss : List Section) : SMState :=
  smSections ss { map := [], log := [] }

/-- The finished section-path index (`CreateMapOfSectionIds(...).get_map()`). -/
def sectionMapOf (ss : List Section) : List (Option String × String) :=
  (smWalk ss).map

/-! ## CreateMapOfIds -/

/-- The element-id map under construction: dict, assignment log, and the
warnings emitted so far. -/
structure IMState where
  map : List (String × String)
  log : List (String × String)
  warns : List Warn
deriving Repr

def imInsert (st : IMState) (k v : String) : IMState :=
  { st with map := pyInsert st.map k v, log := st.log ++ [(k, v)] }

def imWarn (st : IMState) (w : Warn) : IMState :=
  { st with warns := st.warns ++ [w] }

mutual

/-- `CreateMapOfIds._handle_node` and its kind-specific handlers.  Two
quirks of the dispatch loop (`node["t"] == elem_type or node["t"] in
elem_type`) are reproduced: for string table keys `in` is a *substring*
test, so a `Code` node hits the `"CodeBlock"` entry and is handled by
`_handle_codeblock`; and `_handle_emph_strong` only descends into
children that are python lists, so for pandoc dict children it visits
nothing. -/
def imNode (path : String) (n : Node) (st : IMState) : IMState :=
  match n with
  | .BulletList items => imItems path items st
  | .CodeBlock attr _ => if attr.ident ≠ "" then imInsert st attr.ident path else st
  | .Code attr _ => if attr.ident ≠ "" then imInsert st attr.ident path else st
  | .DefinitionList items => imDLPairs path items st
  | .Div attr content =>
    let st1 := if attr.ident ≠ "" then imInsert st attr.ident path else st
    imNodes path content st1
  | .Header _ attr inlines =>
    let st1 := if attr.ident ≠ "" then imInsert st attr.ident path else st
    imNodes path inlines st1
  | .Image attr _ _ _ => if attr.ident ≠ "" then imInsert st attr.ident path else st
  | .Link attr _ _ _ =>
    if attr.classes.contains "video" then
      if attr.ident ≠ "" then imInsert st attr.ident path else st
    else st
  | .OrderedList items => imItems path items st
  | .Quoted _ content => imNodes path content st
  | .Span attr content =>
    let st1 := if attr.ident ≠ "" then imInsert st attr.ident path else st
    imNodes path content st1
  | .Table headers rows =>
    let st1 := imItems path headers st
    imRows path rows st1
  | .Emph _ => st
  | .Strong _ => st
  | .Para content => imNodes path content st
  | .Plain content => imNodes path content st
  | .Math _ => st
  | .Str _ => st
  | .Space => st
  | .SoftBreak => st
  | .LineBreak => st
  | .Other tag => imWarn st (.unknownElem "CreateMapOfIds" tag path)

def imNodes (path : String) (ns : List Node) (st : IMState) : IMState :=
  match ns with
  | [] => st
  | n :: rest => imNodes path rest (imNode path n st)

def imItems (path : String) (items : List (List Node)) (st : IMState) : IMState :=
  match items with
  | [] => st
  | ns :: rest => imItems path rest (imNodes path ns st)

def imRows (path : String) (rows : List (List (List Node))) (st : IMState) : IMState :=
  match rows with
  | [] => st
  | r :: rest => imRows path rest (imItems path r st)

def imDLEntry (path : String) (e : DLEntry) (st : IMState) : IMState :=
  match e with
  | .one n => imNode path n st
  | .many ns => imNodes path ns st

def imDLEntries (path : String) (es : List DLEntry) (st : IMState) : IMState :=
  match es with
  | [] => st
  | e :: rest => imDLEntries path rest (imDLEntry path e st)

def imDLPairs (path : String) (ps : List (List DLEntry × List DLEntry))
    (st : IMState) : IMState :=
  match ps with
  | [] => st
  | (ts, ds) :: rest => imDLPairs path rest (imDLEntries path ds (imDLEntries path ts st))

end

mutual

/-- `CreateMapOfIds._handle_section`: walk the section's content with the
section's path, then the children with prefix `path + "/"`. -/
def imSection (pfx : String) (s : Section) (st : IMState) : IMState :=
  match s with
  | .mk _ sid _ content cs =>
    let path := pfx ++ sid
    let st1 := imNodes path content st
    imSectionList (path ++ "/") cs st1

def imSectionList (pfx : String) (ss : List Section) (st : IMState) : IMState :=
  match ss with
  | [] => st
  | s :: rest => imSectionList pfx rest (imSection pfx s st)

end

/-- `CreateMapOfIds.create`: every top-level section with prefix `""`. -/
def imWalk (ss : List Section) : IMState :=
  imSectionList "" ss { map := [], log := [], warns := [] }

def idMapOf (ss : List Section) : List (String × String) :=
  (imWalk ss).map

end GenInnodoc

namespace GenInnodoc

/-! ## PostprocessLinks -/

/-- `attrs.keys()` membership after `_attrs_to_dict` (duplicate keys
collapse in the dict, which leaves membership unchanged). -/
def hasKey (kvs : List (String × String)) (k : String) : Bool :=
  kvs.any (fun p => p.1 == k)

/-- `if target.startswith("#"): target = target[1:]`. -/
def stripHash (t : String) : String :=
  match t.data with
  | '#' :: rest => String.mk rest
  | _ => t

/-- `PostprocessLinks._generate_section_link`; the hash target is only
appended when truthy (non-empty). -/
def genSectionLink (path : String) (hashTarget : String) : String :=
  if hashTarget ≠ "" then "/section/" ++ path ++ "#" ++ hashTarget
  else "/section/" ++ path

/-- `PostprocessLinks._handle_link`: try the element-id map (URL with
anchor), then the section map (URL without anchor); on success clear the
node's key-value attributes (`node["c"][0][2] = []`) and replace its URL;
on double miss leave the node untouched and emit the single warning
naming the command and the target. -/
def handleLinkCmd (imap : List (String × String)) (smap : List (Option String × String))
    (cmd : String) (attr : Attr) (caption : List Node) (url : String)
    (title : String) (sid : String) : Node × List Warn :=
  let target := stripHash url
  match pyLookup imap target with
  | some path =>
    (.Link { attr with kvs := [] } caption (genSectionLink path target) title, [])
  | none =>
    match pyLookup smap (some target) with
    | some path =>
      (.Link { attr with kvs := [] } caption (genSectionLink path "") title, [])
    | none => (.Link attr caption url title, [.unmappedRef cmd target sid])

/-- `node["c"][1] = []`-style caption replacement on a link node. -/
def setLinkCaption (n : Node) (c : List Node) : Node :=
  match n with
  | .Link a _ u t => .Link a c u t
  | n => n

/-- `PostprocessLinks._handle_ref`: dispatch on the three marker
attributes.  For `data-mref` and `data-mnref` the caption is cleared
*after* `_handle_link` returns, hence also when resolution failed; a
`data-msref` node keeps its caption. -/
def handleRef (imap : List (String × String)) (smap : List (Option String × String))
    (sid : String) (attr : Attr) (caption : List Node) (url : String)
    (title : String) : Node × List Warn :=
  if hasKey attr.kvs "data-mref" then
    let r := handleLinkCmd imap smap "MRef" attr caption url title sid
    (setLinkCaption r.1 [], r.2)
  else if hasKey attr.kvs "data-msref" then
    handleLinkCmd imap smap "MSRef" attr caption url title sid
  else if hasKey attr.kvs "data-mnref" then
    let r := handleLinkCmd imap smap "MNRef" attr caption url title sid
    (setLinkCaption r.1 [], r.2)
  else (.Link attr caption url title, [])

mutual

/-- `PostprocessLinks._handle_node` and its handlers, as a node
transformer returning the rewritten node and the warnings emitted.
Dispatch quirks reproduced from the python loop: a `Str` node hits the
`"Strong"` key by the substring test and `_handle_strong` (like
`_handle_emph_strong` in the other pass) only descends into children
that are python lists — so `Strong` and `Str` are left alone; `Emph` is
dispatched through `_handle_para` and is recursed into. -/
def ppNode (imap : List (String × String)) (smap : List (Option String × String))
    (sid : String) (n : Node) : Node × List Warn :=
  match n with
  | .BulletList items =>
    let r := ppItems imap smap sid items
    (.BulletList r.1, r.2)
  | .DefinitionList items =>
    let r := ppDLPairs imap smap sid items
    (.DefinitionList r.1, r.2)
  | .Div attr content =>
    let r := ppNodes imap smap sid content
    (.Div attr r.1, r.2)
  | .Link attr caption url title => handleRef imap smap sid attr caption url title
  | .OrderedList items =>
    let r := ppItems imap smap sid items
    (.OrderedList r.1, r.2)
  | .Quoted qt content =>
    let r := ppNodes imap smap sid content
    (.Quoted qt r.1, r.2)
  | .Span attr content =>
    if hasKey attr.kvs "data-index-term" then (.Span attr content, [])
    else if attr.kvs.isEmpty then
      let r := ppNodes imap smap sid content
      (.Span attr r.1, r.2)
    else if attr.classes.contains "question" then (.Span attr content, [])
    else (.Span attr content, [.unknownSpan sid])
  | .Strong content => (.Strong content, [])
  | .Table headers rows =>
    let r1 := ppItems imap smap sid headers
    let r2 := ppRows imap smap sid rows
    (.Table r1.1 r2.1, r1.2 ++ r2.2)
  | .Para content =>
    let r := ppNodes imap smap sid content
    (.Para r.1, r.2)
  | .Plain content =>
    let r := ppNodes imap smap sid content
    (.Plain r.1, r.2)
  | .Emph content =>
    let r := ppNodes imap smap sid content
    (.Emph r.1, r.2)
  | .Code a t => (.Code a t, [])
  | .CodeBlock a t => (.CodeBlock a t, [])
  | .Header l a i => (.Header l a i, [])
  | .Image a c u t => (.Image a c u t, [])
  | .LineBreak => (.LineBreak, [])
  | .Math s => (.Math s, [])
  | .SoftBreak => (.SoftBreak, [])
  | .Space => (.Space, [])
  | .Str s => (.Str s, [])
  | .Other tag => (.Other tag, [.unknownElem "PostprocessLinks" tag sid])

def ppNodes (imap : List (String × String)) (smap : List (Option String × String))
    (sid : String) (ns : List Node) : List Node × List Warn :=
  match ns with
  | [] => ([], [])
  | n :: rest =>
    let r := ppNode imap smap sid n
    let rs := ppNodes imap smap sid rest
    (r.1 :: rs.1, r.2 ++ rs.2)

def ppItems (imap : List (String × String)) (smap : List (Option String × String))
    (sid : String) (items : List (List Node)) : List (List Node) × List Warn :=
  match items with
  | [] => ([], [])
  | ns :: rest =>
    let r := ppNodes imap smap sid ns
    let rs := ppItems imap smap sid rest
    (r.1 :: rs.1, r.2 ++ rs.2)

def ppRows (imap : List (String × String)) (smap : List (Option String × String))
    (sid : String) (rows : List (List (List Node))) :
    List (List (List Node)) × List Warn :=
  match rows with
  | [] => ([], [])
  | r :: rest =>
    let r1 := ppItems imap smap sid r
    let rs := ppRows imap smap sid rest
    (r1.1 :: rs.1, r1.2 ++ rs.2)

def ppDLEntry (imap : List (String × String)) (smap : List (Option String × String))
    (sid : String) (e : DLEntry) : DLEntry × List Warn :=
  match e with
  | .one n =>
    let r := ppNode imap smap sid n
    (.one r.1, r.2)
  | .many ns =>
    let r := ppNodes imap smap sid ns
    (.many r.1, r.2)

def ppDLEntries (imap : List (String × String)) (smap : List (Option String × String))
    (sid : String) (es : List DLEntry) : List DLEntry × List Warn :=
  match es with
  | [] => ([], [])
  | e :: rest =>
    let r := ppDLEntry imap smap sid e
    let rs := ppDLEntries imap smap sid rest
    (r.1 :: rs.1, r.2 ++ rs.2)

def ppDLPairs (imap : List (String × String)) (smap : List (Option String × String))
    (sid : String) (ps : List (List DLEntry × List DLEntry)) :
    List (List DLEntry × List DLEntry) × List Warn :=
  match ps with
  | [] => ([], [])
  | (ts, ds) :: rest =>
    let rt := ppDLEntries imap smap sid ts
    let rd := ppDLEntries imap smap sid ds
    let rs := ppDLPairs imap smap sid rest
    ((rt.1, rd.1) :: rs.1, rt.2 ++ rd.2 ++ rs.2)

end

mutual

/-- `PostprocessLinks._handle_section`: rewrite the section's content
nodes (warnings carry this section's id), then the children. -/
def ppSection (imap : List (String × String)) (smap : List (Option String × String))
    (s : Section) : Section × List Warn :=
  match s with
  | .mk title sid ty content cs =>
    let r := ppNodes imap smap sid content
    let rc := ppSectionList imap smap cs
    (.mk title sid ty r.1 rc.1, r.2 ++ rc.2)

def ppSectionList (imap : List (String × String)) (smap : List (Option String × String))
    (ss : List Section) : List Section × List Warn :=
  match ss with
  | [] => ([], [])
  | s :: rest =>
    let r := ppSection imap smap s
    let rs := ppSectionList imap smap rest
    (r.1 :: rs.1, r.2 ++ rs.2)

end

/-- `PostprocessLinks(sections, section_map, id_map).process()`. -/
def ppProcess (imap : List (String × String)) (smap : List (Option String × String))
    (ss : List Section) : List Section × List Warn :=
  ppSectionList imap smap ss

/-! ## WriteSections (the tree mutation only) and the pipeline -/

mutual

/-- The effect of `WriteSections._write_section` on the in-memory tree:
at `depth > MAX_LEVELS` it returns before touching the section, otherwise
it deletes the section's content and recurses into the children with
`depth + 1`.  (File writing and the markdown/pandoc call do not alter the
tree.) -/
def stripSection (depth : Nat) (s : Section) : Section :=
  match s with
  | .mk title sid ty content cs =>
    if depth > MAX_LEVELS then .mk title sid ty content cs
    else .mk title sid ty [] (stripSectionList (depth + 1) cs)

def stripSectionList (depth : Nat) (ss : List Section) : List Section :=
  match ss with
  | [] => []
  | s :: rest => stripSection depth s :: stripSectionList depth rest

end

/-- `GenerateInnodoc.main`, from the loaded document blocks to the
section list serialised into `toc.json`: extract the tree (the preamble
returned next to it is bound to `_` and dropped), build the two maps,
postprocess the links, then let the writer strip content up to
`MAX_LEVELS` (every top-level section starts at depth 1). -/
def pipelineToc (blocks : List Node) : List Section :=
  let sections := (getTree 1 blocks).1
  let smap := sectionMapOf sections
  let imap := idMapOf sections
  let sections2 := (ppProcess imap smap sections).1
  stripSectionList 1 sections2

end GenInnodoc

namespace GenInnodoc

/-! ## Derived notions used by the statements -/

/-- The (title, id) pairs of the level-`level` headers of a flat node
list, in input order, with ids built from the running ordinal the way
`get_tree` builds them. -/
def headerKeysAt (level idx : Nat) : List Node → List (List Node × String)
  | [] => []
  | n :: rest =>
    match headerParts n with
    | some (l, attr, inlines) =>
      if l = level then
        (inlines, sectionIdOf idx attr.ident) :: headerKeysAt level (idx + 1) rest
      else headerKeysAt level idx rest
    | none => headerKeysAt level idx rest

mutual

/-- Pre-order list of the stripped (mintmod) section ids of a section
tree. -/
def bares (s : Section) : List (Option String) :=
  match s with
  | .mk _ sid _ _ cs => mintmodSectionId sid :: baresList cs

def baresList (ss : List Section) : List (Option String) :=
  match ss with
  | [] => []
  | s :: rest => bares s ++ baresList rest

end

mutual

/-- Every section of the tree paired with its hierarchical path
`path(parent) ++ "/" ++ id` (the path the spec intends), in pre-order. -/
def specPairs (pfx : String) (s : Section) : List (Section × String) :=
  match s with
  | .mk t sid ty c cs => (.mk t sid ty c cs, pfx ++ sid) :: specPairsList (pfx ++ sid ++ "/") cs

def specPairsList (pfx : String) (ss : List Section) : List (Section × String) :=
  match ss with
  | [] => []
  | s :: rest => specPairs pfx s ++ specPairsList pfx rest

end

/-- The dict entries the section-map walk is expected to record under
distinct bare ids: one per section, keyed by the stripped id. -/
def specEntriesList (pfx : String) (ss : List Section) : List (Option String × String) :=
  (specPairsList pfx ss).map (fun q => (mintmodSectionId q.1.id, q.2))

def specEntriesOne (pfx : String) (s : Section) : List (Option String × String) :=
  (specPairs pfx s).map (fun q => (mintmodSectionId q.1.id, q.2))

mutual

def sectionCount (s : Section) : Nat :=
  match s with
  | .mk _ _ _ _ cs => 1 + sectionListCount cs

def sectionListCount (ss : List Section) : Nat :=
  match ss with
  | [] => 0
  | s :: rest => sectionCount s + sectionListCount rest

end

/-- The value paired with the last entry of `entries` whose key matches
`k`, if any: what a dict lookup returns when the entries were assigned in
list order, later assignments overwriting earlier ones. -/
def lastVal {α β : Type} [BEq α] (entries : List (α × β)) (k : α) : Option β :=
  match entries with
  | [] => none
  | e :: rest =>
    match lastVal rest k with
    | some v => some v
    | none => if e.1 == k then some e.2 else none

/-- Replay a list of dict assignments, in order, on top of `m`. -/
def pyInsertFold {α β : Type} (m : List (α × β)) (entries : List (α × β)) :
    List (α × β) :=
  entries.foldl (fun acc p => pyInsert acc p.1 p.2) m

/-- Replay a list of assignments on a section-map state: dict updated by
each entry in order, log extended by the entries. -/
def stFold (st : SMState) (entries : List (Option String × String)) : SMState :=
  { map := pyInsertFold st.map entries,
    log := st.log ++ entries }

/-! ## Concrete input documents used in the witnesses and counterexamples -/

/-- A level-1/2/3 chain followed by a level-4 heading and a paragraph. -/
def blocksDeep : List Node :=
  [.Header 1 ⟨"A", [], []⟩ [.Str "A"],
   .Header 2 ⟨"B", [], []⟩ [.Str "B"],
   .Header 3 ⟨"C", [], []⟩ [.Str "C"],
   .Header 4 ⟨"D", [], []⟩ [.Str "D"],
   .Para [.Str "x"]]

/-- A document whose level-3 heading reuses the bare id of the level-1
heading, followed by a second level-2 sibling. -/
def blocksDup : List Node :=
  [.Header 1 ⟨"dup", [], []⟩ [.Str "P"],
   .Header 2 ⟨"c1", [], []⟩ [.Str "C1"],
   .Header 3 ⟨"dup", [], []⟩ [.Str "D"],
   .Header 2 ⟨"c2", [], []⟩ [.Str "C2"]]

/-- The three-level `LABEL_1` / `LABEL_1_1` / `LABEL_1_1_1` document of
the specification's example. -/
def blocksLabel : List Node :=
  [.Header 1 ⟨"LABEL_1", [], []⟩ [.Str "1"],
   .Header 2 ⟨"LABEL_1_1", [], []⟩ [.Str "1-1"],
   .Header 3 ⟨"LABEL_1_1_1", [], []⟩ [.Str "1-1-1"]]

/-- A document with a preamble paragraph before the first level-1
heading. -/
def blocksPre : List Node :=
  [.Para [.Str "x"], .Header 1 ⟨"A", [], []⟩ [.Str "A"]]

/-- A two-level tree with distinct bare ids, used as witness input. -/
def childW : Section := .mk [.Str "2"] "000-c" none [] []

def rootW : Section := .mk [.Str "1"] "000-P" none [] [childW]

/-- Two sibling sections with the same bare id `dup`, each holding a div
with the same element id `e`. -/
def collideSections : List Section :=
  [.mk [.Str "S1"] "000-dup" none [.Div ⟨"e", [], []⟩ []] [],
   .mk [.Str "S2"] "001-dup" none [.Div ⟨"e", [], []⟩ []] []]

end GenInnodoc

namespace GenInnodoc

/-! ## Helper lemmas -/

theorem fmt3_zero : fmt3 0 = "000" := rfl

theorem fmt3_one : fmt3 1 = "001" := rfl

/-! ## Claim theorems -/

/-- Claim C2 (code bug): the spec and the repository's own test comment
("level 4 must not generate section") say no node beyond `MAX_LEVELS`
appears in the emitted manifest, its content folding into the level-3
ancestor's body.  Evaluating the embedded pipeline on a document whose
level-4 heading directly follows a level-3 heading shows the opposite:
`create_section` recurses whenever `self.level <= MAX_LEVELS`, i.e. it
still splits a level-3 section's children at level 4, and the writer
(`depth > MAX_LEVELS`) returns before stripping, so the toc tree keeps a
level-4 section node `000-D` holding its content. -/
theorem claim_C2_eval :
    pipelineToc blocksDeep =
      [.mk [.Str "A"] "000-A" none []
        [.mk [.Str "B"] "000-B" none []
          [.mk [.Str "C"] "000-C" none []
            [.mk [.Str "D"] "000-D" none [.Para [.Str "x"]] []]]]] := by
  simp [blocksDeep, pipelineToc, getTree, getTreeLoop, initB, headerParts, MAX_LEVELS,
    pushNode, finishSection, openFromHeader, sectionIdOf, fmt3_zero, sectionMapOf,
    smWalk, smSections, smSection, smChildren, smInsert, pyInsert, pyLookup,
    mintmodSectionId, idMapOf, imWalk, imSectionList, imSection, imNodes, imNode,
    ppProcess, ppSectionList, ppSection, ppNodes, ppNode, stripSectionList,
    stripSection]

/-- Claim C5, counterexample: a section whose id is the pure ordinal
`"000"` (no recoverable bare id) is *not* omitted from the section-path
index; `_handle_section` assigns unconditionally, so the index holds an
entry for it under the stripped empty bare id. -/
theorem claim_C5_counterexample :
    sectionMapOf [.mk [.Str "T"] "000" none [] []] = [(some "", "000")] ∧
    pyLookup (sectionMapOf [.mk [.Str "T"] "000" none [] []]) (some "") = some "000" := by
  constructor <;>
    (simp [sectionMapOf, smWalk, smSections, smSection, smChildren, smInsert,
      pyInsert, pyLookup, mintmodSectionId]
     try decide)

/-- Claim C1, counterexample: an `MRef` (kind A) link whose target is in
neither index is *not* left byte-for-byte unchanged — `_handle_ref` runs
`node["c"][1] = []` after `_handle_link` returns, also on failure, so the
caption is emptied.  (The single warning naming the kind and target is
emitted as claimed.) -/
theorem claim_C1_counterexample :
    (handleRef [] [] "000-A" ⟨"", [], [("data-mref", "")]⟩ [.Str "cap"] "#nope" "").1 ≠
      .Link ⟨"", [], [("data-mref", "")]⟩ [.Str "cap"] "#nope" "" ∧
    (handleRef [] [] "000-A" ⟨"", [], [("data-mref", "")]⟩ [.Str "cap"] "#nope" "").2 =
      [.unmappedRef "MRef" "nope" "000-A"] := by
  constructor <;>
    simp [handleRef, handleLinkCmd, hasKey, stripHash, pyLookup, setLinkCaption]

/-- Claim C1 (amended): when the stripped target is found in neither
index, the resolver emits exactly one warning naming the reference kind
and the target, and leaves the node's URL and attributes (markers
included) unchanged; a kind-B (`MSRef`) node is byte-for-byte unchanged,
while for kinds A (`MRef`) and C (`MNRef`) the caption is nevertheless
emptied. -/
theorem claim_C1_amended (imap : List (String × String))
    (smap : List (Option String × String)) (sid : String) (attr : Attr)
    (caption : List Node) (url title : String)
    (h1 : pyLookup imap (stripHash url) = none)
    (h2 : pyLookup smap (some (stripHash url)) = none) :
    (hasKey attr.kvs "data-mref" = true →
      handleRef imap smap sid attr caption url title =
        (.Link attr [] url title, [.unmappedRef "MRef" (stripHash url) sid])) ∧
    (hasKey attr.kvs "data-mref" = false → hasKey attr.kvs "data-msref" = true →
      handleRef imap smap sid attr caption url title =
        (.Link attr caption url title, [.unmappedRef "MSRef" (stripHash url) sid])) ∧
    (hasKey attr.kvs "data-mref" = false → hasKey attr.kvs "data-msref" = false →
      hasKey attr.kvs "data-mnref" = true →
      handleRef imap smap sid attr caption url title =
        (.Link attr [] url title, [.unmappedRef "MNRef" (stripHash url) sid])) := by
  refine ⟨fun ha => ?_, fun ha hb => ?_, fun ha hb hc => ?_⟩
  · simp [handleRef, handleLinkCmd, setLinkCaption, ha, h1, h2]
  · simp [handleRef, handleLinkCmd, setLinkCaption, ha, hb, h1, h2]
  · simp [handleRef, handleLinkCmd, setLinkCaption, ha, hb, hc, h1, h2]

/-- Claim C1, witness for the amended statement at a concrete input. -/
theorem claim_C1_witness :
    pyLookup ([] : List (String × String)) (stripHash "#nope") = none ∧
    pyLookup ([] : List (Option String × String)) (some (stripHash "#nope")) = none ∧
    hasKey [("data-mref", "")] "data-mref" = true ∧
    handleRef [] [] "000-A" ⟨"", [], [("data-mref", "")]⟩ [.Str "cap"] "#nope" "" =
      (.Link ⟨"", [], [("data-mref", "")]⟩ [] "#nope" "",
        [.unmappedRef "MRef" (stripHash "#nope") "000-A"]) :=
  ⟨rfl, rfl, by decide,
    (claim_C1_amended [] [] "000-A" ⟨"", [], [("data-mref", "")]⟩ [.Str "cap"]
      "#nope" "" rfl rfl).1 (by decide)⟩

/-- Claim C3: resolution of a marked reference link with stripped target
T.  If T is a key of the element-id map the URL becomes
`/section/{path}#{T}`; otherwise, if T is a key of the section map, the
URL becomes `/section/{path}` without anchor.  On success the custom
(key-value) attributes are cleared and the caption is preserved for kind
B (`MSRef`) but emptied for kinds A (`MRef`) and C (`MNRef`).  (The
hypothesis `T ≠ ""` reflects that both indexes only ever hold non-empty
element keys, ids being recorded only under python truthiness.) -/
theorem claim_C3 (imap : List (String × String))
    (smap : List (Option String × String)) (sid ident : String)
    (cls : List String) (kvs : List (String × String)) (caption : List Node)
    (url title path : String) (htgt : stripHash url ≠ "") :
    (pyLookup imap (stripHash url) = some path →
      (hasKey kvs "data-mref" = true →
        handleRef imap smap sid ⟨ident, cls, kvs⟩ caption url title =
          (.Link ⟨ident, cls, []⟩ [] ("/section/" ++ path ++ "#" ++ stripHash url) title,
            [])) ∧
      (hasKey kvs "data-mref" = false → hasKey kvs "data-msref" = true →
        handleRef imap smap sid ⟨ident, cls, kvs⟩ caption url title =
          (.Link ⟨ident, cls, []⟩ caption
            ("/section/" ++ path ++ "#" ++ stripHash url) title, [])) ∧
      (hasKey kvs "data-mref" = false → hasKey kvs "data-msref" = false →
        hasKey kvs "data-mnref" = true →
        handleRef imap smap sid ⟨ident, cls, kvs⟩ caption url title =
          (.Link ⟨ident, cls, []⟩ [] ("/section/" ++ path ++ "#" ++ stripHash url) title,
            []))) ∧
    (pyLookup imap (stripHash url) = none →
      pyLookup smap (some (stripHash url)) = some path →
      (hasKey kvs "data-mref" = true →
        handleRef imap smap sid ⟨ident, cls, kvs⟩ caption url title =
          (.Link ⟨ident, cls, []⟩ [] ("/section/" ++ path) title, [])) ∧
      (hasKey kvs "data-mref" = false → hasKey kvs "data-msref" = true →
        handleRef imap smap sid ⟨ident, cls, kvs⟩ caption url title =
          (.Link ⟨ident, cls, []⟩ caption ("/section/" ++ path) title, [])) ∧
      (hasKey kvs "data-mref" = false → hasKey kvs "data-msref" = false →
        hasKey kvs "data-mnref" = true →
        handleRef imap smap sid ⟨ident, cls, kvs⟩ caption url title =
          (.Link ⟨ident, cls, []⟩ [] ("/section/" ++ path) title, []))) := by
  constructor
  · intro hi
    refine ⟨fun ha => ?_, fun ha hb => ?_, fun ha hb hc => ?_⟩
    · simp [handleRef, handleLinkCmd, setLinkCaption, genSectionLink, ha, hi, htgt]
    · simp [handleRef, handleLinkCmd, setLinkCaption, genSectionLink, ha, hb, hi, htgt]
    · simp [handleRef, handleLinkCmd, setLinkCaption, genSectionLink, ha, hb, hc, hi,
        htgt]
  · intro hi hs
    refine ⟨fun ha => ?_, fun ha hb => ?_, fun ha hb hc => ?_⟩
    · simp [handleRef, handleLinkCmd, setLinkCaption, genSectionLink, ha, hi, hs, htgt]
    · simp [handleRef, handleLinkCmd, setLinkCaption, genSectionLink, ha, hb, hi, hs,
        htgt]
    · simp [handleRef, handleLinkCmd, setLinkCaption, genSectionLink, ha, hb, hc, hi,
        hs, htgt]

/-- Claim C3, witness: the specification's kind-B example, `infolabel`
resolved under `000-LABEL_1/001-LABEL_1_2/000-LABEL_1_2_1` with the
caption preserved. -/
theorem claim_C3_witness :
    stripHash "#infolabel" ≠ "" ∧
    pyLookup [("infolabel", "000-LABEL_1/001-LABEL_1_2/000-LABEL_1_2_1")]
      (stripHash "#infolabel") = some "000-LABEL_1/001-LABEL_1_2/000-LABEL_1_2_1" ∧
    hasKey [("data-msref", "")] "data-mref" = false ∧
    hasKey [("data-msref", "")] "data-msref" = true ∧
    handleRef [("infolabel", "000-LABEL_1/001-LABEL_1_2/000-LABEL_1_2_1")] []
      "000-s" ⟨"", [], [("data-msref", "")]⟩ [.Str "Intro"] "#infolabel" "" =
      (.Link ⟨"", [], []⟩ [.Str "Intro"]
        ("/section/" ++ "000-LABEL_1/001-LABEL_1_2/000-LABEL_1_2_1" ++ "#" ++
          stripHash "#infolabel") "", []) :=
  ⟨by decide, by decide, by decide, by decide,
    ((claim_C3 [("infolabel", "000-LABEL_1/001-LABEL_1_2/000-LABEL_1_2_1")] []
      "000-s" "" [] [("data-msref", "")] [.Str "Intro"] "#infolabel" ""
      "000-LABEL_1/001-LABEL_1_2/000-LABEL_1_2_1" (by decide)).1
      (by decide)).2.1 (by decide) (by decide)⟩

/-- Claim C9, counterexample: a `Link` node carrying the class `video`
and a non-empty id *does* contribute an entry to the element-id index
(`CreateMapOfIds._handle_link`), so not every key of the index originates
from a non-link node; the tree below contains a single content node, a
marked reference link, and the index ends up non-empty (with no
warnings). -/
theorem claim_C9_counterexample :
    idMapOf [.mk [.Str "T"] "000-x" none
        [.Link ⟨"v", ["video"], [("data-mref", "")]⟩ [.Str "c"] "#t" ""] []] =
      [("v", "000-x")] ∧
    pyLookup (idMapOf [.mk [.Str "T"] "000-x" none
        [.Link ⟨"v", ["video"], [("data-mref", "")]⟩ [.Str "c"] "#t" ""] []]) "v" =
      some "000-x" ∧
    (imWalk [.mk [.Str "T"] "000-x" none
        [.Link ⟨"v", ["video"], [("data-mref", "")]⟩ [.Str "c"] "#t" ""] []]).warns =
      [] := by
  refine ⟨?_, ?_, ?_⟩ <;>
    simp [idMapOf, imWalk, imSectionList, imSection, imNodes, imNode, imInsert,
      pyInsert, pyLookup]

/-- Claim C9 (amended): during the element-id walk the atomic leaf kinds
contribute nothing and are not recursed into; `Link` nodes are not
recursed into either and contribute nothing — except when they carry the
class `video` and a non-empty id, in which case that id is mapped to the
section path. -/
theorem claim_C9_amended (path : String) (st : IMState) (attr : Attr)
    (caption : List Node) (url title s m : String) :
    imNode path (.Link attr caption url title) st =
      (if attr.classes.contains "video" then
        if attr.ident ≠ "" then imInsert st attr.ident path else st
      else st) ∧
    imNode path (.Str s) st = st ∧
    imNode path (.Math m) st = st ∧
    imNode path .Space st = st ∧
    imNode path .SoftBreak st = st ∧
    imNode path .LineBreak st = st := by
  refine ⟨?_, ?_, ?_, ?_, ?_, ?_⟩ <;> simp [imNode]

end GenInnodoc

namespace GenInnodoc

/-! ## Section-map walk: totality of the recording -/

mutual

theorem smSection_mono (s : Section) (pfx : String) (st : SMState) (k : Option String)
    (h : (pyLookup st.map k).isSome = true) :
    (pyLookup (smSection s pfx st).map k).isSome = true := by
  cases s with
  | mk t sid ty c cs =>
    simp only [smSection]
    apply smChildren_mono
    by_cases hk : mintmodSectionId sid == k
    · simp [smInsert, pyInsert, pyLookup, hk]
    · simp [smInsert, pyInsert, pyLookup, hk, h]

theorem smChildren_mono (mm : Option String) (cs : List Section) (st : SMState)
    (k : Option String) (h : (pyLookup st.map k).isSome = true) :
    (pyLookup (smChildren mm cs st).map k).isSome = true := by
  cases cs with
  | nil => simpa [smChildren] using h
  | cons c rest =>
    simp only [smChildren]
    cases hl : pyLookup st.map mm with
    | none => exact h
    | some p =>
      exact smChildren_mono mm rest (smSection c (p ++ "/") st) k
        (smSection_mono c (p ++ "/") st k h)

end

mutual

theorem smSection_log (s : Section) (pfx : String) (st : SMState) :
    (smSection s pfx st).log.length = st.log.length + sectionCount s := by
  cases s with
  | mk t sid ty c cs =>
    simp only [smSection, sectionCount]
    rw [smChildren_log]
    · simp [smInsert]
      omega
    · simp [smInsert, pyInsert, pyLookup]

theorem smChildren_log (mm : Option String) (cs : List Section) (st : SMState)
    (h : (pyLookup st.map mm).isSome = true) :
    (smChildren mm cs st).log.length = st.log.length + sectionListCount cs := by
  cases cs with
  | nil => simp [smChildren, sectionListCount]
  | cons c rest =>
    simp only [smChildren]
    cases hl : pyLookup st.map mm with
    | none =>
      rw [hl] at h
      simp at h
    | some p =>
      rw [smChildren_log mm rest (smSection c (p ++ "/") st)
        (smSection_mono c (p ++ "/") st mm h)]
      rw [smSection_log c (p ++ "/") st]
      simp [sectionListCount]
      omega

end

theorem smSections_log (ss : List Section) (st : SMState) :
    (smSections ss st).log.length = st.log.length + sectionListCount ss := by
  induction ss generalizing st with
  | nil => simp [smSections, sectionListCount]
  | cons s rest ih =>
    simp only [smSections]
    rw [ih, smSection_log]
    simp [sectionListCount]
    omega

/-- Claim C5 (amended): a section with a pure-ordinal id is *not* omitted
from the section-path index — `_handle_section` assigns unconditionally,
recording it under the stripped empty bare id (`some ""`); and no section
of the tree is skipped: the walk performs exactly one assignment per
section. -/
theorem claim_C5_amended (title : List Node) (ty : Option String)
    (content : List Node) (sid pfx : String) (st : SMState)
    (h : mintmodSectionId sid = some "") :
    pyLookup (smSection (.mk title sid ty content []) pfx st).map (some "") =
      some (pfx ++ sid) ∧
    ∀ ss : List Section, (smWalk ss).log.length = sectionListCount ss := by
  constructor
  · simp [smSection, smChildren, smInsert, pyInsert, pyLookup, h]
  · intro ss
    simpa [smWalk] using smSections_log ss { map := [], log := [] }

/-- Claim C5, witness: the pure-ordinal section id `"000"` is recorded
under the empty bare id. -/
theorem claim_C5_witness :
    mintmodSectionId "000" = some "" ∧
    pyLookup (smSection (.mk [.Str "T"] "000" none [] []) ""
        { map := [], log := [] }).map (some "") = some ("" ++ "000") ∧
    (smWalk [.mk [.Str "T"] "000" none [] []]).log.length =
      sectionListCount [.mk [.Str "T"] "000" none [] []] :=
  ⟨by decide,
    (claim_C5_amended [.Str "T"] none [] "000" "" { map := [], log := [] }
      (by decide)).1,
    (claim_C5_amended [.Str "T"] none [] "000" "" { map := [], log := [] }
      (by decide)).2 [.mk [.Str "T"] "000" none [] []]⟩

end GenInnodoc

namespace GenInnodoc

/-! ## Builder invariants -/

theorem pushNode_sections (n : Node) (st : BState) :
    (pushNode n st).sections = st.sections := by
  unfold pushNode
  split <;> rfl

theorem pushNode_curr (n : Node) (st : BState) : (pushNode n st).curr = st.curr := by
  unfold pushNode
  split <;> rfl

theorem pushNode_sectionIdx (n : Node) (st : BState) :
    (pushNode n st).sectionIdx = st.sectionIdx := by
  unfold pushNode
  split <;> rfl

theorem pushNode_awaitHeader (n : Node) (st : BState) :
    (pushNode n st).awaitHeader = st.awaitHeader := by
  unfold pushNode
  split <;> rfl

theorem finishSection_title (os : OpenSection) (sub : List Section × List Node) :
    (finishSection os sub).title = os.title := rfl

theorem finishSection_id (os : OpenSection) (sub : List Section × List Node) :
    (finishSection os sub).id = os.id := rfl

theorem getTreeLoop_keys (level : Nat) (nodes : List Node) (st : BState) :
    ((getTreeLoop level nodes st).1).map (fun s => (s.title, s.id)) =
      st.sections.map (fun s => (s.title, s.id)) ++
      (match st.curr with
       | some os => [(os.title, os.id)]
       | none => []) ++
      headerKeysAt level st.sectionIdx nodes := by
  induction nodes generalizing st with
  | nil =>
    cases hc : st.curr with
    | none => simp [getTreeLoop, hc, headerKeysAt]
    | some os =>
      simp [getTreeLoop, hc, headerKeysAt, finishSection_title, finishSection_id]
  | cons n rest ih =>
    cases hp : headerParts n with
    | none =>
      simp only [getTreeLoop, hp]
      rw [ih]
      simp [pushNode_sections, pushNode_curr, pushNode_sectionIdx, headerKeysAt, hp]
    | some parts =>
      obtain ⟨l, attr, inlines⟩ := parts
      by_cases hl : l = level
      · simp only [getTreeLoop, hp]
        rw [if_pos hl]
        rw [ih]
        cases hc : st.curr with
        | none =>
          simp [hc, headerKeysAt, hp, openFromHeader, hl]
        | some os =>
          simp [hc, headerKeysAt, hp, openFromHeader, hl, finishSection_title,
            finishSection_id]
      · simp only [getTreeLoop, hp]
        rw [if_neg hl]
        rw [ih]
        simp [pushNode_sections, pushNode_curr, pushNode_sectionIdx, headerKeysAt,
          hp, hl]

/-- Claim C7: sections produced at level `level` correspond one-to-one,
in the same order, to the level-`level` headers of the input: the list of
(title, id) pairs of the result equals the (title, ordinal-prefixed id)
pairs read off the headers in input order. -/
theorem claim_C7 (level : Nat) (nodes : List Node) :
    ((getTree level nodes).1).map (fun s => (s.title, s.id)) =
      headerKeysAt level 0 nodes := by
  simpa [getTree, initB] using getTreeLoop_keys level nodes initB

end GenInnodoc

namespace GenInnodoc

theorem getTreeLoop_content (level : Nat) (nodes : List Node) (st : BState) :
    (getTreeLoop level nodes st).2 =
      st.content ++
        (if st.awaitHeader then
          nodes.takeWhile (fun n => !(isHeaderAtLevel level n))
        else []) := by
  induction nodes generalizing st with
  | nil => cases hc : st.curr <;> simp [getTreeLoop, hc]
  | cons n rest ih =>
    cases hp : headerParts n with
    | none =>
      simp only [getTreeLoop, hp]
      rw [ih]
      by_cases ha : st.awaitHeader <;>
        simp [pushNode, ha, List.takeWhile_cons, isHeaderAtLevel, hp]
    | some parts =>
      obtain ⟨l, attr, inlines⟩ := parts
      by_cases hl : l = level
      · simp only [getTreeLoop, hp]
        rw [if_pos hl]
        rw [ih]
        cases hc : st.curr with
        | none =>
          by_cases ha : st.awaitHeader <;>
            simp [hc, ha, List.takeWhile_cons, isHeaderAtLevel, hp, hl]
        | some os =>
          by_cases ha : st.awaitHeader <;>
            simp [hc, ha, List.takeWhile_cons, isHeaderAtLevel, hp, hl]
      · simp only [getTreeLoop, hp]
        rw [if_neg hl]
        rw [ih]
        by_cases ha : st.awaitHeader <;>
          simp [pushNode, ha, List.takeWhile_cons, isHeaderAtLevel, hp, hl]

theorem getTreeLoop_fst_ext (level : Nat) (nodes : List Node) (st st' : BState)
    (h1 : st.sections = st'.sections) (h2 : st.curr = st'.curr)
    (h3 : st.awaitHeader = st'.awaitHeader) (h4 : st.children = st'.children)
    (h5 : st.sectionIdx = st'.sectionIdx) :
    (getTreeLoop level nodes st).1 = (getTreeLoop level nodes st').1 := by
  induction nodes generalizing st st' with
  | nil =>
    cases hc : st'.curr with
    | none => simp [getTreeLoop, h2, hc, h1]
    | some os => simp [getTreeLoop, h2, hc, h1, h4]
  | cons n rest ih =>
    cases hp : headerParts n with
    | none =>
      simp only [getTreeLoop, hp]
      apply ih <;> by_cases ha : st.awaitHeader <;>
        simp [pushNode, ha, ← h3, h1, h2, h4, h5]
    | some parts =>
      obtain ⟨l, attr, inlines⟩ := parts
      by_cases hl : l = level
      · simp only [getTreeLoop, hp]
        rw [if_pos hl, if_pos hl]
        cases hc : st'.curr with
        | none =>
          apply ih <;> simp [h2, hc, h1, h4, h5]
        | some os =>
          apply ih <;> simp [h2, hc, h1, h4, h5]
      · simp only [getTreeLoop, hp]
        rw [if_neg hl, if_neg hl]
        apply ih <;> by_cases ha : st.awaitHeader <;>
          simp [pushNode, ha, ← h3, h1, h2, h4, h5]

theorem getTreeLoop_fst_preamble (level : Nat) (pre rest : List Node) (st : BState)
    (h : ∀ n ∈ pre, isHeaderAtLevel level n = false)
    (ha : st.awaitHeader = true) :
    (getTreeLoop level (pre ++ rest) st).1 = (getTreeLoop level rest st).1 := by
  induction pre generalizing st with
  | nil => rfl
  | cons p pre' ih =>
    have hph : isHeaderAtLevel level p = false := h p (List.mem_cons_self p pre')
    have step :
        (getTreeLoop level ((p :: pre') ++ rest) st).1 =
          (getTreeLoop level (pre' ++ rest) (pushNode p st)).1 := by
      cases hp : headerParts p with
      | none => simp only [List.cons_append, getTreeLoop, hp]
      | some parts =>
        obtain ⟨l, attr, inlines⟩ := parts
        have hl : ¬ l = level := by
          intro hcontra
          rw [isHeaderAtLevel, hp, hcontra] at hph
          simp at hph
        simp only [List.cons_append, getTreeLoop, hp]
        rw [if_neg hl]
    rw [step]
    rw [ih (pushNode p st) (fun n hn => h n (List.mem_cons_of_mem p hn))
      (by rw [pushNode_awaitHeader, ha])]
    apply getTreeLoop_fst_ext
    · rw [pushNode_sections]
    · rw [pushNode_curr]
    · rw [pushNode_awaitHeader]
    · simp [pushNode, ha]
    · rw [pushNode_sectionIdx]

/-- Claim C8, counterexample: preamble content before the first level-1
heading is returned untouched by the builder but `main` binds it to `_`
and drops it — it does not become the root section's leading content: on
`blocksPre` the produced course consists of the single root section
`000-A` with empty content, and the preamble paragraph appears nowhere. -/
theorem claim_C8_counterexample :
    getTree 1 blocksPre = ([.mk [.Str "A"] "000-A" none [] []], [.Para [.Str "x"]]) ∧
    pipelineToc blocksPre = [.mk [.Str "A"] "000-A" none [] []] := by
  constructor <;>
    simp [blocksPre, pipelineToc, getTree, getTreeLoop, initB, headerParts,
      MAX_LEVELS, pushNode, finishSection, openFromHeader, sectionIdOf, fmt3_zero,
      sectionMapOf, smWalk, smSections, smSection, smChildren, smInsert, pyInsert,
      pyLookup, mintmodSectionId, idMapOf, imWalk, imSectionList, imSection, imNodes,
      imNode, ppProcess, ppSectionList, ppSection, ppNodes, ppNode, stripSectionList,
      stripSection]

/-- Claim C8 (amended): the builder does return the preamble untouched
(the nodes before the first level-matching header, in order); but at the
document root the pipeline discards it — the produced course is the same
with or without the preamble, so the preamble does not become any
section's content. -/
theorem claim_C8_amended :
    (∀ (level : Nat) (nodes : List Node),
      (getTree level nodes).2 =
        nodes.takeWhile (fun n => !(isHeaderAtLevel level n))) ∧
    (∀ pre rest : List Node, (∀ n ∈ pre, isHeaderAtLevel 1 n = false) →
      pipelineToc (pre ++ rest) = pipelineToc rest) := by
  constructor
  · intro level nodes
    simpa [getTree, initB] using getTreeLoop_content level nodes initB
  · intro pre rest h
    have hs : (getTree 1 (pre ++ rest)).1 = (getTree 1 rest).1 :=
      getTreeLoop_fst_preamble 1 pre rest initB h rfl
    simp only [pipelineToc]
    rw [hs]

/-- Claim C8, witness: the amended statement at the concrete preamble
document `blocksPre`. -/
theorem claim_C8_witness :
    (getTree 2 [.Para [.Str "x"]]).2 =
      [.Para [.Str "x"]].takeWhile (fun n => !(isHeaderAtLevel 2 n)) ∧
    (∀ n ∈ [Node.Para [.Str "x"]], isHeaderAtLevel 1 n = false) ∧
    pipelineToc ([.Para [.Str "x"]] ++ [.Header 1 ⟨"A", [], []⟩ [.Str "A"]]) =
      pipelineToc [.Header 1 ⟨"A", [], []⟩ [.Str "A"]] :=
  ⟨claim_C8_amended.1 2 [.Para [.Str "x"]],
    by decide,
    claim_C8_amended.2 [.Para [.Str "x"]] [.Header 1 ⟨"A", [], []⟩ [.Str "A"]]
      (by decide)⟩

end GenInnodoc

namespace GenInnodoc

/-! ## Idempotence of the link resolver -/

theorem hasKey_nil (k : String) : hasKey [] k = false := rfl

theorem handleRef_idem (imap : List (String × String))
    (smap : List (Option String × String)) (sid : String) (attr : Attr)
    (caption : List Node) (url title : String) :
    (ppNode imap smap sid (handleRef imap smap sid attr caption url title).1).1 =
      (handleRef imap smap sid attr caption url title).1 := by
  by_cases hm : hasKey attr.kvs "data-mref"
  · cases hi : pyLookup imap (stripHash url) with
    | some p =>
      simp [handleRef, handleLinkCmd, setLinkCaption, ppNode, hasKey_nil, hm, hi]
    | none =>
      cases hs : pyLookup smap (some (stripHash url)) with
      | some p =>
        simp [handleRef, handleLinkCmd, setLinkCaption, ppNode, hasKey_nil, hm, hi, hs]
      | none =>
        simp [handleRef, handleLinkCmd, setLinkCaption, ppNode, hm, hi, hs]
  · by_cases hms : hasKey attr.kvs "data-msref"
    · cases hi : pyLookup imap (stripHash url) with
      | some p =>
        simp [handleRef, handleLinkCmd, setLinkCaption, ppNode, hasKey_nil, hm, hms, hi]
      | none =>
        cases hs : pyLookup smap (some (stripHash url)) with
        | some p =>
          simp [handleRef, handleLinkCmd, setLinkCaption, ppNode, hasKey_nil, hm, hms,
            hi, hs]
        | none =>
          simp [handleRef, handleLinkCmd, setLinkCaption, ppNode, hm, hms, hi, hs]
    · by_cases hmn : hasKey attr.kvs "data-mnref"
      · cases hi : pyLookup imap (stripHash url) with
        | some p =>
          simp [handleRef, handleLinkCmd, setLinkCaption, ppNode, hasKey_nil, hm, hms,
            hmn, hi]
        | none =>
          cases hs : pyLookup smap (some (stripHash url)) with
          | some p =>
            simp [handleRef, handleLinkCmd, setLinkCaption, ppNode, hasKey_nil, hm, hms,
              hmn, hi, hs]
          | none =>
            simp [handleRef, handleLinkCmd, setLinkCaption, ppNode, hm, hms, hmn,
              hi, hs]
      · simp [handleRef, ppNode, hm, hms, hmn]

mutual

theorem ppNode_idem (imap : List (String × String))
    (smap : List (Option String × String)) (sid : String) (n : Node) :
    (ppNode imap smap sid (ppNode imap smap sid n).1).1 =
      (ppNode imap smap sid n).1 := by
  cases n with
  | Header l a i => simp [ppNode]
  | Para c => simp [ppNode, ppNodes_idem imap smap sid c]
  | Plain c => simp [ppNode, ppNodes_idem imap smap sid c]
  | Emph c => simp [ppNode, ppNodes_idem imap smap sid c]
  | Strong c => simp [ppNode]
  | Div a c => simp [ppNode, ppNodes_idem imap smap sid c]
  | Span a c =>
    by_cases h1 : hasKey a.kvs "data-index-term"
    · simp [ppNode, h1]
    · by_cases h2 : a.kvs.isEmpty
      · simp [ppNode, h1, h2, ppNodes_idem imap smap sid c]
      · by_cases h3 : "question" ∈ a.classes
        · simp [ppNode, h1, h2, h3]
        · simp [ppNode, h1, h2, h3]
  | Link a cap u t => exact handleRef_idem imap smap sid a cap u t
  | Image a cap u t => simp [ppNode]
  | CodeBlock a t => simp [ppNode]
  | Code a t => simp [ppNode]
  | BulletList items => simp [ppNode, ppItems_idem imap smap sid items]
  | OrderedList items => simp [ppNode, ppItems_idem imap smap sid items]
  | DefinitionList items => simp [ppNode, ppDLPairs_idem imap smap sid items]
  | Quoted qt c => simp [ppNode, ppNodes_idem imap smap sid c]
  | Table hs rows =>
    simp [ppNode, ppItems_idem imap smap sid hs, ppRows_idem imap smap sid rows]
  | Math t => simp [ppNode]
  | Str t => simp [ppNode]
  | Space => simp [ppNode]
  | SoftBreak => simp [ppNode]
  | LineBreak => simp [ppNode]
  | Other tag => simp [ppNode]

theorem ppNodes_idem (imap : List (String × String))
    (smap : List (Option String × String)) (sid : String) (ns : List Node) :
    (ppNodes imap smap sid (ppNodes imap smap sid ns).1).1 =
      (ppNodes imap smap sid ns).1 := by
  cases ns with
  | nil => simp [ppNodes]
  | cons n rest =>
    simp [ppNodes, ppNode_idem imap smap sid n, ppNodes_idem imap smap sid rest]

theorem ppItems_idem (imap : List (String × String))
    (smap : List (Option String × String)) (sid : String)
    (items : List (List Node)) :
    (ppItems imap smap sid (ppItems imap smap sid items).1).1 =
      (ppItems imap smap sid items).1 := by
  cases items with
  | nil => simp [ppItems]
  | cons ns rest =>
    simp [ppItems, ppNodes_idem imap smap sid ns, ppItems_idem imap smap sid rest]

theorem ppRows_idem (imap : List (String × String))
    (smap : List (Option String × String)) (sid : String)
    (rows : List (List (List Node))) :
    (ppRows imap smap sid (ppRows imap smap sid rows).1).1 =
      (ppRows imap smap sid rows).1 := by
  cases rows with
  | nil => simp [ppRows]
  | cons r rest =>
    simp [ppRows, ppItems_idem imap smap sid r, ppRows_idem imap smap sid rest]

theorem ppDLEntry_idem (imap : List (String × String))
    (smap : List (Option String × String)) (sid : String) (e : DLEntry) :
    (ppDLEntry imap smap sid (ppDLEntry imap smap sid e).1).1 =
      (ppDLEntry imap smap sid e).1 := by
  cases e with
  | one n => simp [ppDLEntry, ppNode_idem imap smap sid n]
  | many ns => simp [ppDLEntry, ppNodes_idem imap smap sid ns]

theorem ppDLEntries_idem (imap : List (String × String))
    (smap : List (Option String × String)) (sid : String) (es : List DLEntry) :
    (ppDLEntries imap smap sid (ppDLEntries imap smap sid es).1).1 =
      (ppDLEntries imap smap sid es).1 := by
  cases es with
  | nil => simp [ppDLEntries]
  | cons e rest =>
    simp [ppDLEntries, ppDLEntry_idem imap smap sid e,
      ppDLEntries_idem imap smap sid rest]

theorem ppDLPairs_idem (imap : List (String × String))
    (smap : List (Option String × String)) (sid : String)
    (ps : List (List DLEntry × List DLEntry)) :
    (ppDLPairs imap smap sid (ppDLPairs imap smap sid ps).1).1 =
      (ppDLPairs imap smap sid ps).1 := by
  cases ps with
  | nil => simp [ppDLPairs]
  | cons p rest =>
    obtain ⟨ts, ds⟩ := p
    simp [ppDLPairs, ppDLEntries_idem imap smap sid ts,
      ppDLEntries_idem imap smap sid ds, ppDLPairs_idem imap smap sid rest]

end

mutual

theorem ppSection_idem (imap : List (String × String))
    (smap : List (Option String × String)) (s : Section) :
    (ppSection imap smap (ppSection imap smap s).1).1 = (ppSection imap smap s).1 := by
  cases s with
  | mk title sid ty content cs =>
    simp [ppSection, ppNodes_idem imap smap sid content,
      ppSectionList_idem imap smap cs]

theorem ppSectionList_idem (imap : List (String × String))
    (smap : List (Option String × String)) (ss : List Section) :
    (ppSectionList imap smap (ppSectionList imap smap ss).1).1 =
      (ppSectionList imap smap ss).1 := by
  cases ss with
  | nil => simp [ppSectionList]
  | cons s rest =>
    simp [ppSectionList, ppSection_idem imap smap s,
      ppSectionList_idem imap smap rest]

end

/-- Claim C6: the link resolver is idempotent as a tree transformer — for
every pair of indexes, processing an already-processed section tree
yields the same tree (resolved links have had their marker attributes
cleared, and unresolved links fail identically a second time, leaving
the tree unchanged). -/
theorem claim_C6 (imap : List (String × String))
    (smap : List (Option String × String)) (ss : List Section) :
    (ppProcess imap smap (ppProcess imap smap ss).1).1 =
      (ppProcess imap smap ss).1 := by
  simpa [ppProcess] using ppSectionList_idem imap smap ss

end GenInnodoc

namespace GenInnodoc

/-! ## Dict lookups resolve to the last assignment -/

theorem pyInsertFold_append {α β : Type} (m : List (α × β)) (l1 l2 : List (α × β)) :
    pyInsertFold m (l1 ++ l2) = pyInsertFold (pyInsertFold m l1) l2 := by
  simp [pyInsertFold, List.foldl_append]

theorem pyLookup_pyInsertFold {α β : Type} [BEq α] (m : List (α × β))
    (entries : List (α × β)) (k : α) :
    pyLookup (pyInsertFold m entries) k =
      match lastVal entries k with
      | some v => some v
      | none => pyLookup m k := by
  induction entries generalizing m with
  | nil => simp [pyInsertFold, lastVal]
  | cons e rest ih =>
    have hstep : pyInsertFold m (e :: rest) = pyInsertFold (pyInsert m e.1 e.2) rest := rfl
    rw [hstep, ih]
    cases hlast : lastVal rest k with
    | some v => simp [lastVal, hlast]
    | none =>
      by_cases hk : e.1 == k
      · simp [lastVal, hlast, hk, pyLookup, pyInsert]
      · simp [lastVal, hlast, hk, pyLookup, pyInsert]

mutual

theorem smSection_sync (s : Section) (pfx : String) (st : SMState)
    (h : st.map = pyInsertFold [] st.log) :
    (smSection s pfx st).map = pyInsertFold [] (smSection s pfx st).log := by
  cases s with
  | mk t sid ty c cs =>
    simp only [smSection]
    apply smChildren_sync
    simp only [smInsert, pyInsertFold_append]
    rw [← h]
    rfl

theorem smChildren_sync (mm : Option String) (cs : List Section) (st : SMState)
    (h : st.map = pyInsertFold [] st.log) :
    (smChildren mm cs st).map = pyInsertFold [] (smChildren mm cs st).log := by
  cases cs with
  | nil => simpa [smChildren] using h
  | cons c rest =>
    simp only [smChildren]
    cases hl : pyLookup st.map mm with
    | none => exact h
    | some p =>
      exact smChildren_sync mm rest (smSection c (p ++ "/") st)
        (smSection_sync c (p ++ "/") st h)

end

theorem smSections_sync (ss : List Section) (st : SMState)
    (h : st.map = pyInsertFold [] st.log) :
    (smSections ss st).map = pyInsertFold [] (smSections ss st).log := by
  induction ss generalizing st with
  | nil => simpa [smSections] using h
  | cons s rest ih =>
    simp only [smSections]
    exact ih (smSection s "" st) (smSection_sync s "" st h)

theorem imInsert_sync (st : IMState) (k v : String)
    (h : st.map = pyInsertFold [] st.log) :
    (imInsert st k v).map = pyInsertFold [] (imInsert st k v).log := by
  simp only [imInsert, pyInsertFold_append]
  rw [← h]
  rfl

theorem imOptInsert_sync (st : IMState) (ident path : String)
    (h : st.map = pyInsertFold [] st.log) :
    (if ident ≠ "" then imInsert st ident path else st).map =
      pyInsertFold [] (if ident ≠ "" then imInsert st ident path else st).log := by
  by_cases hid : ident = ""
  · simpa [hid] using h
  · simpa [hid] using imInsert_sync st ident path h

mutual

theorem imNode_sync (path : String) (n : Node) (st : IMState)
    (h : st.map = pyInsertFold [] st.log) :
    (imNode path n st).map = pyInsertFold [] (imNode path n st).log := by
  cases n with
  | Header l a i =>
    simp only [imNode]
    exact imNodes_sync path i _ (imOptInsert_sync st a.ident path h)
  | Para c => simp only [imNode]; exact imNodes_sync path c st h
  | Plain c => simp only [imNode]; exact imNodes_sync path c st h
  | Emph c => simpa [imNode] using h
  | Strong c => simpa [imNode] using h
  | Div a c =>
    simp only [imNode]
    exact imNodes_sync path c _ (imOptInsert_sync st a.ident path h)
  | Span a c =>
    simp only [imNode]
    exact imNodes_sync path c _ (imOptInsert_sync st a.ident path h)
  | Link a cap u t =>
    simp only [imNode]
    by_cases hv : a.classes.contains "video" = true
    · rw [if_pos hv]
      exact imOptInsert_sync st a.ident path h
    · rw [if_neg hv]
      exact h
  | Image a cap u t =>
    simp only [imNode]
    exact imOptInsert_sync st a.ident path h
  | CodeBlock a t =>
    simp only [imNode]
    exact imOptInsert_sync st a.ident path h
  | Code a t =>
    simp only [imNode]
    exact imOptInsert_sync st a.ident path h
  | BulletList items => simp only [imNode]; exact imItems_sync path items st h
  | OrderedList items => simp only [imNode]; exact imItems_sync path items st h
  | DefinitionList items => simp only [imNode]; exact imDLPairs_sync path items st h
  | Quoted qt c => simp only [imNode]; exact imNodes_sync path c st h
  | Table hs rows =>
    simp only [imNode]
    exact imRows_sync path rows _ (imItems_sync path hs st h)
  | Math t => simpa [imNode] using h
  | Str t => simpa [imNode] using h
  | Space => simpa [imNode] using h
  | SoftBreak => simpa [imNode] using h
  | LineBreak => simpa [imNode] using h
  | Other tag => simpa [imNode, imWarn] using h

theorem imNodes_sync (path : String) (ns : List Node) (st : IMState)
    (h : st.map = pyInsertFold [] st.log) :
    (imNodes path ns st).map = pyInsertFold [] (imNodes path ns st).log := by
  cases ns with
  | nil => simpa [imNodes] using h
  | cons n rest =>
    simp only [imNodes]
    exact imNodes_sync path rest _ (imNode_sync path n st h)

theorem imItems_sync (path : String) (items : List (List Node)) (st : IMState)
    (h : st.map = pyInsertFold [] st.log) :
    (imItems path items st).map = pyInsertFold [] (imItems path items st).log := by
  cases items with
  | nil => simpa [imItems] using h
  | cons ns rest =>
    simp only [imItems]
    exact imItems_sync path rest _ (imNodes_sync path ns st h)

theorem imRows_sync (path : String) (rows : List (List (List Node))) (st : IMState)
    (h : st.map = pyInsertFold [] st.log) :
    (imRows path rows st).map = pyInsertFold [] (imRows path rows st).log := by
  cases rows with
  | nil => simpa [imRows] using h
  | cons r rest =>
    simp only [imRows]
    exact imRows_sync path rest _ (imItems_sync path r st h)

theorem imDLEntry_sync (path : String) (e : DLEntry) (st : IMState)
    (h : st.map = pyInsertFold [] st.log) :
    (imDLEntry path e st).map = pyInsertFold [] (imDLEntry path e st).log := by
  cases e with
  | one n => simp only [imDLEntry]; exact imNode_sync path n st h
  | many ns => simp only [imDLEntry]; exact imNodes_sync path ns st h

theorem imDLEntries_sync (path : String) (es : List DLEntry) (st : IMState)
    (h : st.map = pyInsertFold [] st.log) :
    (imDLEntries path es st).map = pyInsertFold [] (imDLEntries path es st).log := by
  cases es with
  | nil => simpa [imDLEntries] using h
  | cons e rest =>
    simp only [imDLEntries]
    exact imDLEntries_sync path rest _ (imDLEntry_sync path e st h)

theorem imDLPairs_sync (path : String) (ps : List (List DLEntry × List DLEntry))
    (st : IMState) (h : st.map = pyInsertFold [] st.log) :
    (imDLPairs path ps st).map = pyInsertFold [] (imDLPairs path ps st).log := by
  cases ps with
  | nil => simpa [imDLPairs] using h
  | cons p rest =>
    obtain ⟨ts, ds⟩ := p
    simp only [imDLPairs]
    exact imDLPairs_sync path rest _
      (imDLEntries_sync path ds _ (imDLEntries_sync path ts st h))

end

mutual

theorem imSection_sync (pfx : String) (s : Section) (st : IMState)
    (h : st.map = pyInsertFold [] st.log) :
    (imSection pfx s st).map = pyInsertFold [] (imSection pfx s st).log := by
  cases s with
  | mk t sid ty content cs =>
    simp only [imSection]
    exact imSectionList_sync _ cs _ (imNodes_sync _ content st h)

theorem imSectionList_sync (pfx : String) (ss : List Section) (st : IMState)
    (h : st.map = pyInsertFold [] st.log) :
    (imSectionList pfx ss st).map = pyInsertFold [] (imSectionList pfx ss st).log := by
  cases ss with
  | nil => simpa [imSectionList] using h
  | cons s rest =>
    simp only [imSectionList]
    exact imSectionList_sync pfx rest _ (imSection_sync pfx s st h)

end

/-- Claim C10: both index dicts resolve every key to the value of the
assignment performed last during the walk (the log records the
assignments in visit order, which is pre-order for both walks: a
section's own entry resp. content before its children), later entries
silently overwriting earlier ones; on a concrete tree with a duplicated
bare section id and a duplicated element id, both indexes return the
later section's path and the id-map walk emits no warning for the
collisions. -/
theorem claim_C10 :
    (∀ (ss : List Section) (k : Option String),
      pyLookup (smWalk ss).map k = lastVal (smWalk ss).log k) ∧
    (∀ (ss : List Section) (k : String),
      pyLookup (imWalk ss).map k = lastVal (imWalk ss).log k) ∧
    pyLookup (sectionMapOf collideSections) (some "dup") = some "001-dup" ∧
    pyLookup (idMapOf collideSections) "e" = some "001-dup" ∧
    (imWalk collideSections).warns = [] := by
  refine ⟨?_, ?_, ?_, ?_, ?_⟩
  · intro ss k
    simp only [smWalk]
    rw [smSections_sync ss { map := [], log := [] } rfl]
    rw [pyLookup_pyInsertFold]
    cases lastVal (smSections ss { map := [], log := [] }).log k <;> simp [pyLookup]
  · intro ss k
    simp only [imWalk]
    rw [imSectionList_sync "" ss { map := [], log := [], warns := [] } rfl]
    rw [pyLookup_pyInsertFold]
    cases lastVal (imSectionList "" ss { map := [], log := [], warns := [] }).log k <;>
      simp [pyLookup]
  · simp [collideSections, sectionMapOf, smWalk, smSections, smSection, smChildren,
      smInsert, pyInsert, pyLookup, mintmodSectionId]
    try decide
  · simp [collideSections, idMapOf, imWalk, imSectionList, imSection, imNodes,
      imNode, imInsert, pyInsert, pyLookup]
    try decide
  · simp [collideSections, imWalk, imSectionList, imSection, imNodes, imNode,
      imInsert]
    try decide

end GenInnodoc

namespace GenInnodoc

/-! ## Structure of the section-path index under distinct bare ids -/

theorem pyLookup_pyInsert_self {α β : Type} [BEq α] [LawfulBEq α]
    (m : List (α × β)) (k : α) (v : β) :
    pyLookup (pyInsert m k v) k = some v := by
  simp [pyInsert, pyLookup]

theorem pyLookup_pyInsert_ne {α β : Type} [BEq α] [LawfulBEq α]
    (m : List (α × β)) (k k' : α) (v : β) (h : ¬ k = k') :
    pyLookup (pyInsert m k v) k' = pyLookup m k' := by
  simp [pyInsert, pyLookup, h]

theorem stFold_nil (st : SMState) : stFold st [] = st := by
  simp [stFold, pyInsertFold]

theorem stFold_cons (st : SMState) (k : Option String) (v : String)
    (l : List (Option String × String)) :
    stFold st ((k, v) :: l) = stFold (smInsert st k v) l := by
  simp [stFold, smInsert, pyInsertFold]

theorem stFold_append (st : SMState) (l1 l2 : List (Option String × String)) :
    stFold st (l1 ++ l2) = stFold (stFold st l1) l2 := by
  simp [stFold, pyInsertFold_append]

theorem specEntriesList_cons (pfx : String) (s : Section) (rest : List Section) :
    specEntriesList pfx (s :: rest) =
      specEntriesOne pfx s ++ specEntriesList pfx rest := by
  simp [specEntriesList, specEntriesOne, specPairsList]

mutual

theorem smSection_frame (s : Section) (pfx : String) (st : SMState) (k : Option String)
    (h : k ∉ bares s) :
    pyLookup (smSection s pfx st).map k = pyLookup st.map k := by
  cases s with
  | mk t sid ty c cs =>
    rw [bares] at h
    simp only [List.mem_cons, not_or] at h
    simp only [smSection]
    rw [smChildren_frame (mintmodSectionId sid) cs _ k h.2]
    exact pyLookup_pyInsert_ne st.map (mintmodSectionId sid) k (pfx ++ sid)
      (fun he => h.1 he.symm)

theorem smChildren_frame (mm : Option String) (cs : List Section) (st : SMState)
    (k : Option String) (h : k ∉ baresList cs) :
    pyLookup (smChildren mm cs st).map k = pyLookup st.map k := by
  cases cs with
  | nil => rfl
  | cons c rest =>
    rw [baresList] at h
    simp only [List.mem_append, not_or] at h
    simp only [smChildren]
    cases hl : pyLookup st.map mm with
    | none => rfl
    | some p =>
      rw [smChildren_frame mm rest _ k h.2]
      exact smSection_frame c (p ++ "/") st k h.1

end

mutual

theorem smSection_spec (s : Section) (pfx : String) (st : SMState)
    (h : (bares s).Nodup) :
    smSection s pfx st = stFold st (specEntriesOne pfx s) := by
  cases s with
  | mk t sid ty c cs =>
    rw [bares] at h
    rw [List.nodup_cons] at h
    have hent : specEntriesOne pfx (.mk t sid ty c cs) =
        (mintmodSectionId sid, pfx ++ sid) ::
          specEntriesList (pfx ++ sid ++ "/") cs := by
      simp [specEntriesOne, specPairs, specEntriesList, Section.id]
    rw [hent, stFold_cons]
    simp only [smSection]
    exact smChildren_spec cs (mintmodSectionId sid) (pfx ++ sid)
      (smInsert st (mintmodSectionId sid) (pfx ++ sid))
      (pyLookup_pyInsert_self st.map (mintmodSectionId sid) (pfx ++ sid)) h.1 h.2

theorem smChildren_spec (cs : List Section) (mm : Option String) (basePath : String)
    (st : SMState) (hl : pyLookup st.map mm = some basePath)
    (hm : mm ∉ baresList cs) (hn : (baresList cs).Nodup) :
    smChildren mm cs st = stFold st (specEntriesList (basePath ++ "/") cs) := by
  cases cs with
  | nil => simp [smChildren, specEntriesList, specPairsList, stFold_nil]
  | cons c rest =>
    rw [baresList] at hm hn
    simp only [List.mem_append, not_or] at hm
    have hcnd : (bares c).Nodup := hn.of_append_left
    have hrnd : (baresList rest).Nodup := hn.of_append_right
    simp only [smChildren, hl]
    rw [smSection_spec c (basePath ++ "/") st hcnd]
    have hl2 : pyLookup (stFold st (specEntriesOne (basePath ++ "/") c)).map mm =
        some basePath := by
      rw [← smSection_spec c (basePath ++ "/") st hcnd]
      rw [smSection_frame c (basePath ++ "/") st mm hm.1]
      exact hl
    rw [smChildren_spec rest mm basePath _ hl2 hm.2 hrnd]
    rw [← stFold_append, ← specEntriesList_cons]

end

theorem smSections_spec (ss : List Section) (st : SMState)
    (h : (baresList ss).Nodup) :
    smSections ss st = stFold st (specEntriesList "" ss) := by
  induction ss generalizing st with
  | nil => simp [smSections, specEntriesList, specPairsList, stFold_nil]
  | cons s rest ih =>
    rw [baresList] at h
    simp only [smSections]
    rw [smSection_spec s "" st h.of_append_left]
    rw [ih _ h.of_append_right]
    rw [← stFold_append, ← specEntriesList_cons]

mutual

theorem specEntriesOne_keys (pfx : String) (s : Section) :
    (specEntriesOne pfx s).map Prod.fst = bares s := by
  cases s with
  | mk t sid ty c cs =>
    have hent : specEntriesOne pfx (.mk t sid ty c cs) =
        (mintmodSectionId sid, pfx ++ sid) ::
          specEntriesList (pfx ++ sid ++ "/") cs := by
      simp [specEntriesOne, specPairs, specEntriesList, Section.id]
    rw [hent, bares]
    simp only [List.map_cons]
    rw [specEntriesList_keys (pfx ++ sid ++ "/") cs]

theorem specEntriesList_keys (pfx : String) (ss : List Section) :
    (specEntriesList pfx ss).map Prod.fst = baresList ss := by
  cases ss with
  | nil => rfl
  | cons s rest =>
    rw [specEntriesList_cons, baresList]
    simp only [List.map_append]
    rw [specEntriesOne_keys pfx s, specEntriesList_keys pfx rest]

end

theorem lastVal_eq_none {α β : Type} [BEq α] [LawfulBEq α]
    (entries : List (α × β)) (k : α) (h : k ∉ entries.map Prod.fst) :
    lastVal entries k = none := by
  induction entries with
  | nil => rfl
  | cons e rest ih =>
    simp only [List.map_cons, List.mem_cons, not_or] at h
    rw [lastVal, ih h.2]
    have : (e.1 == k) = false := by
      simp only [beq_eq_false_iff_ne]
      exact fun he => h.1 he.symm
    simp [this]

theorem lastVal_mem_nodup {α β : Type} [BEq α] [LawfulBEq α]
    (entries : List (α × β)) (k : α) (v : β) (hmem : (k, v) ∈ entries)
    (hnd : (entries.map Prod.fst).Nodup) : lastVal entries k = some v := by
  induction entries with
  | nil => cases hmem
  | cons e rest ih =>
    simp only [List.map_cons, List.nodup_cons] at hnd
    rcases List.mem_cons.mp hmem with he | hr
    · subst he
      rw [lastVal, lastVal_eq_none rest k hnd.1]
      simp
    · rw [lastVal, ih hr hnd.2]

theorem smMap_spec_lookup (ss : List Section) (h : (baresList ss).Nodup)
    (s : Section) (path : String) (hmem : (s, path) ∈ specPairsList "" ss) :
    pyLookup (sectionMapOf ss) (mintmodSectionId s.id) = some path := by
  have hment : (mintmodSectionId s.id, path) ∈ specEntriesList "" ss := by
    simpa [specEntriesList] using
      List.mem_map_of_mem (fun q => (mintmodSectionId q.1.id, q.2)) hmem
  have hkeys : ((specEntriesList "" ss).map Prod.fst).Nodup := by
    rw [specEntriesList_keys]
    exact h
  have hlast := lastVal_mem_nodup _ _ _ hment hkeys
  show pyLookup (smWalk ss).map _ = _
  rw [smWalk, smSections_spec ss _ h]
  simp only [stFold]
  rw [pyLookup_pyInsertFold]
  rw [hlast]

theorem specPairsList_self_mem (pfx : String) (cs : List Section) (c : Section)
    (hc : c ∈ cs) : (c, pfx ++ c.id) ∈ specPairsList pfx cs := by
  induction cs with
  | nil => cases hc
  | cons c' rest ih =>
    rw [specPairsList]
    rcases List.mem_cons.mp hc with he | hr
    · subst he
      apply List.mem_append_left
      cases c with
      | mk t sid ty cc ccs =>
        rw [specPairs]
        exact List.mem_cons_self _ _
    · exact List.mem_append_right _ (ih hr)

mutual

theorem specPairs_closure (pfx : String) (s : Section) (p : Section) (pathP : String)
    (hm : (p, pathP) ∈ specPairs pfx s) (c : Section) (hc : c ∈ p.children) :
    (c, pathP ++ "/" ++ c.id) ∈ specPairs pfx s := by
  cases s with
  | mk t sid ty cc cs =>
    rw [specPairs] at hm ⊢
    rcases List.mem_cons.mp hm with he | hr
    · rw [Prod.mk.injEq] at he
      apply List.mem_cons_of_mem
      rw [← he.2]
      apply specPairsList_self_mem
      have : p.children = cs := by
        rw [he.1]
        rfl
      rw [← this]
      exact hc
    · exact List.mem_cons_of_mem _
        (specPairsList_closure (pfx ++ sid ++ "/") cs p pathP hr c hc)

theorem specPairsList_closure (pfx : String) (ss : List Section) (p : Section)
    (pathP : String) (hm : (p, pathP) ∈ specPairsList pfx ss) (c : Section)
    (hc : c ∈ p.children) : (c, pathP ++ "/" ++ c.id) ∈ specPairsList pfx ss := by
  cases ss with
  | nil => cases hm
  | cons s rest =>
    rw [specPairsList] at hm ⊢
    rcases List.mem_append.mp hm with hl | hr
    · exact List.mem_append_left _ (specPairs_closure pfx s p pathP hl c hc)
    · exact List.mem_append_right _
        (specPairsList_closure pfx rest p pathP hr c hc)

end

/-- Claim C4, counterexample: `_handle_section` re-reads
`self.id_map[mintmod_section_id]` for every child, so after the level-3
section `000-dup` (inside `000-c1`) overwrites the bare id `dup` of the
root, the root's second child `001-c2` is recorded under the corrupted
prefix `000-dup/000-c1/000-dup/` instead of `000-dup/`; the stored path
violates `path(child) = path(parent) + "/" + child.id` (the parent of
`001-c2` is the root `000-dup`). -/
theorem claim_C4_counterexample :
    (getTree 1 blocksDup).1 =
      [.mk [.Str "P"] "000-dup" none []
        [.mk [.Str "C1"] "000-c1" none [] [.mk [.Str "D"] "000-dup" none [] []],
         .mk [.Str "C2"] "001-c2" none [] []]] ∧
    pyLookup (sectionMapOf (getTree 1 blocksDup).1) (some "c2") =
      some "000-dup/000-c1/000-dup/001-c2" ∧
    "000-dup/000-c1/000-dup/001-c2" ≠ "000-dup" ++ "/" ++ "001-c2" := by
  refine ⟨?_, ?_, ?_⟩
  · simp [blocksDup, getTree, getTreeLoop, initB, headerParts, MAX_LEVELS, pushNode,
      finishSection, openFromHeader, sectionIdOf, fmt3_zero, fmt3_one]
  · simp [blocksDup, getTree, getTreeLoop, initB, headerParts, MAX_LEVELS, pushNode,
      finishSection, openFromHeader, sectionIdOf, fmt3_zero, fmt3_one, sectionMapOf,
      smWalk, smSections, smSection, smChildren, smInsert, pyInsert, pyLookup,
      mintmodSectionId]
    try decide
  · decide

/-- Claim C4 (amended): provided the stripped bare ids of the tree are
pairwise distinct (so that no descendant overwrites the dict entry whose
re-read supplies the child prefix), the path stored for every section is
its hierarchical path, and `path(child) = path(parent) + "/" + child.id`
holds for every parent/child pair; the spec's concrete three-level
`LABEL_1_1_1` example evaluates to exactly the stated path. -/
theorem claim_C4_amended :
    (∀ ss : List Section, (baresList ss).Nodup →
      ∀ p pathP, (p, pathP) ∈ specPairsList "" ss →
        ∀ c ∈ p.children,
          pyLookup (sectionMapOf ss) (mintmodSectionId c.id) =
              some (pathP ++ "/" ++ c.id) ∧
            pyLookup (sectionMapOf ss) (mintmodSectionId p.id) = some pathP) ∧
    pyLookup (sectionMapOf (getTree 1 blocksLabel).1) (some "LABEL_1_1_1") =
      some "000-LABEL_1/000-LABEL_1_1/000-LABEL_1_1_1" := by
  constructor
  · intro ss h p pathP hmem c hc
    exact ⟨smMap_spec_lookup ss h c _ (specPairsList_closure "" ss p pathP hmem c hc),
      smMap_spec_lookup ss h p pathP hmem⟩
  · simp [blocksLabel, getTree, getTreeLoop, initB, headerParts, MAX_LEVELS, pushNode,
      finishSection, openFromHeader, sectionIdOf, fmt3_zero, sectionMapOf, smWalk,
      smSections, smSection, smChildren, smInsert, pyInsert, pyLookup,
      mintmodSectionId]
    try decide

/-- Claim C4, witness: the amended statement applied to a concrete
two-level tree with distinct bare ids. -/
theorem claim_C4_witness :
    (baresList [rootW]).Nodup ∧
    (rootW, "" ++ "000-P") ∈ specPairsList "" [rootW] ∧
    childW ∈ rootW.children ∧
    (pyLookup (sectionMapOf [rootW]) (mintmodSectionId childW.id) =
        some (("" ++ "000-P") ++ "/" ++ childW.id) ∧
      pyLookup (sectionMapOf [rootW]) (mintmodSectionId rootW.id) =
        some ("" ++ "000-P")) :=
  ⟨by simp [baresList, bares, rootW, childW, mintmodSectionId]
      decide,
    by simp [specPairsList, specPairs, rootW, childW],
    by simp [rootW, childW, Section.children],
    claim_C4_amended.1 [rootW]
      (by simp [baresList, bares, rootW, childW, mintmodSectionId]
          decide)
      rootW ("" ++ "000-P")
      (by simp [specPairsList, specPairs, rootW, childW])
      childW
      (by simp [rootW, childW, Section.children])⟩

end GenInnodoc
